import Mathlib

/-!
Verification of the search core of DOIMiner (`core.py`).

Strings are modelled as `List Char`; Python's `str.lower()` is modelled
character-wise with `Char.toLower` (ASCII case folding, which covers every
character the normalizer's contract mentions); Python's substring operator
`in` is modelled by `strIn`.  Fallible dictionary/list indexing is modelled
with `Except`.  The Crossref network boundary is modelled by an oracle
`fetch : group-index → attempt-number → Except errorCode pages`, and the
progress callback and retry sleeps are recorded as traces.
-/

namespace DOIMiner

/-- Strings of the Python source, modelled as lists of characters. -/
abbrev Str := List Char

/-- Python's substring containment test `needle in hay`. -/
def strIn (needle : Str) : Str → Bool
  | [] => needle.isEmpty
  | c :: rest => needle.isPrefixOf (c :: rest) || strIn needle rest

/-- Python `keyword.endswith('s')` (`False` on the empty string). -/
def endsWithS (k : Str) : Bool := k.getLast? == some 's'

/-- The `subscript_map` dict of `normalise_text` (core.py lines 35-38),
in source order. -/
def subscript_map : List (Char × Char) :=
  [('₂', '2'), ('₃', '3'), ('₁', '1'), ('₀', '0'),
   ('₄', '4'), ('₅', '5'), ('₆', '6'), ('₇', '7'), ('₈', '8'), ('₉', '9')]

/-- `normalise_text` (core.py lines 27-43): falsy input gives the empty
string; otherwise lowercase, then apply each subscript replacement in
turn (each `text.replace(sub, normal)` is a character-wise map because
every key of `subscript_map` is a single character). -/
def normalise_text (text : Str) : Str :=
  if text = [] then []
  else
    subscript_map.foldl
      (fun acc p => acc.map fun c => if c = p.1 then p.2 else c)
      (text.map Char.toLower)

/-- `check_keyword_match` (core.py lines 46-54): direct containment, else
strip a trailing `s` from the keyword, else append an `s` to the keyword. -/
def check_keyword_match (keyword text : Str) : Bool :=
  if strIn keyword text then true
  else if endsWithS keyword && strIn keyword.dropLast text then true
  else if !endsWithS keyword && strIn (keyword ++ ['s']) text then true
  else false

/-- `chunk_keywords` (core.py lines 21-24), specialised to the only call
site's `chunk_size=3` (core.py line 84): successive slices
`keywords[i:i+3]`, written out structurally (each arm is the value of
`keywords[i:i+3]` / `keywords[i+3:]` for lists of that length). -/
def chunk_keywords : List Str → List (List Str)
  | [] => []
  | [a] => [[a]]
  | [a, b] => [[a, b]]
  | a :: b :: c :: rest => [a, b, c] :: chunk_keywords rest

/-- Search errors: the `ValueError` of core.py line 65, a Crossref failure
propagated by `raise e` (identified by an abstract numeric code), and a
Python `IndexError` from indexing an empty list. -/
inductive SErr
  | validationError
  | sourceError (code : Nat)
  | indexError
deriving DecidableEq

/-- The fixed publisher enumeration of `PUBLISHER_MAP` (core.py 72-79). -/
inductive Publisher
  | ACS | RSC | Wiley | Elsevier | Springer | Science
deriving DecidableEq

/-- `PUBLISHER_MAP` (core.py lines 72-79): DOI prefix per publisher. -/
def PUBLISHER_MAP : Publisher → Str
  | .ACS => "10.1021".toList
  | .RSC => "10.1039".toList
  | .Wiley => "10.1002".toList
  | .Elsevier => "10.1016".toList
  | .Springer => "10.1007".toList
  | .Science => "10.1126".toList

/-- One element of a Crossref `author` list; only `family` is read. -/
structure AuthorRec where
  family : Option Str
deriving DecidableEq

/-- The Crossref `issued` object; only `date-parts` is read. -/
structure IssuedRec where
  date_parts : Option (List (List Int))
deriving DecidableEq

/-- A raw Crossref record as read by `run_search` (the fields selected at
core.py line 101); `none` models an absent key. -/
structure Item where
  DOI : Option Str
  title : Option (List Str)
  container_title : Option (List Str)
  author : Option (List AuthorRec)
  issued : Option IssuedRec
deriving DecidableEq

/-- One row of `relevant_papers_dict` (core.py lines 143-152). -/
structure Paper where
  DOI : Str
  Title : Str
  Journal : Str
  First_Author : Str
  Year : Int
  Matched_Keywords : Str
  Match_Count : Nat
  Abstract : Str
deriving DecidableEq

/-- Mutable state of one `run_search` call: `relevant_papers_dict` as an
insertion-ordered association list, the `total_checked` counter, and the
trace of `progress_callback(total_checked, len(relevant_papers_dict))`
invocations. -/
structure SState where
  papers : List (Str × Paper)
  total_checked : Nat
  progress : List (Nat × Nat)
deriving DecidableEq

/-- The parameters of one `run_search` call that the record loop reads. -/
structure Cfg where
  keywords : List Str
  threshold : Int
  output_limit : Int
  allowed_prefixes : List Str
  hasCallback : Bool

/-- `SEARCH_SPACE_LIMIT` (core.py line 67). -/
def SEARCH_SPACE_LIMIT : Nat := 2000

/-- `MAX_KEYWORDS` (core.py line 62). -/
def MAX_KEYWORDS : Nat := 10

/-- Python `xs_opt.get(key, [d])[0]` where the field holds a list: an absent
field yields the default `d`, a present empty list raises `IndexError`. -/
def getFirstD {α : Type} (field : Option (List α)) (d : α) : Except SErr α :=
  match field with
  | none => .ok d
  | some [] => .error .indexError
  | some (x :: _) => .ok x

/-- `item.get('issued', {}).get('date-parts', [[0]])[0][0]`
(core.py line 148). -/
def getYear (issued : Option IssuedRec) : Except SErr Int :=
  let dp : List (List Int) :=
    match issued with
    | none => [[0]]
    | some iss =>
      match iss.date_parts with
      | none => [[0]]
      | some l => l
  match dp with
  | [] => .error .indexError
  | first :: _ =>
    match first with
    | [] => .error .indexError
    | y :: _ => .ok y

/-- The `matches` list of core.py lines 135-141: normalise the title,
then collect (in keyword order) the request keywords whose normalised
form matches it. -/
def matchesFor (keywords : List Str) (title : Str) : List Str :=
  let title_normalized := normalise_text title
  keywords.filter fun kw =>
    check_keyword_match (normalise_text kw) title_normalized

/-- The dict literal stored in `relevant_papers_dict[doi]`
(core.py lines 143-152), with the fallible field reads in source order. -/
def buildPaper (doi title : Str) (kwMatches : List Str) (item : Item) :
    Except SErr Paper :=
  match getFirstD item.container_title [] with
  | .error e => .error e
  | .ok journal =>
    match getFirstD item.author ⟨none⟩ with
    | .error e => .error e
    | .ok firstAuthor =>
      match getYear item.issued with
      | .error e => .error e
      | .ok year =>
        .ok { DOI := doi, Title := title, Journal := journal,
              First_Author := firstAuthor.family.getD [],
              Year := year,
              Matched_Keywords := List.intercalate (", ".toList) kwMatches,
              Match_Count := kwMatches.length,
              Abstract := [] }

/-- Lines 124-127 of core.py: `total_checked += 1` and the periodic
`progress_callback(total_checked, len(relevant_papers_dict))` call
(recorded in the trace when a callback was supplied). -/
def counted (cfg : Cfg) (st : SState) : SState :=
  ⟨st.papers, st.total_checked + 1,
   if cfg.hasCallback ∧ (st.total_checked + 1) % 20 = 0
   then st.progress ++ [(st.total_checked + 1, st.papers.length)]
   else st.progress⟩

/-- Line 143 of core.py: `relevant_papers_dict[doi] = {...}` (insertion
into the insertion-ordered dict). -/
def appendPaper (st : SState) (doi : Str) (paper : Paper) : SState :=
  ⟨st.papers ++ [(doi, paper)], st.total_checked, st.progress⟩

/-- The body of `for item in items` (core.py lines 114-155).  The returned
`Bool` is `true` when the body executed a `break` of the item loop. -/
def itemStep (cfg : Cfg) (st : SState) (item : Item) :
    Except SErr (SState × Bool) :=
  match item.DOI with
  | none => .ok (st, false)
  | some doi =>
    if doi = [] then .ok (st, false)
    else if (st.papers.lookup doi).isSome then .ok (st, false)
    else if cfg.allowed_prefixes ≠ [] ∧
        ¬ (cfg.allowed_prefixes.any fun pre => pre.isPrefixOf doi) then
      .ok (st, false)
    else
      let st1 : SState := counted cfg st
      if st1.total_checked > SEARCH_SPACE_LIMIT then .ok (st1, true)
      else
        match getFirstD item.title [] with
        | .error e => .error e
        | .ok title =>
          if title = [] then .ok (st1, false)
          else
            let kwMatches := matchesFor cfg.keywords title
            if (kwMatches.dedup.length : Int) ≥ cfg.threshold then
              match buildPaper doi title kwMatches item with
              | .error e => .error e
              | .ok paper =>
                let st2 : SState := appendPaper st1 doi paper
                if (st2.papers.length : Int) ≥ cfg.output_limit
                then .ok (st2, true) else .ok (st2, false)
            else
              if (st1.papers.length : Int) ≥ cfg.output_limit
              then .ok (st1, true) else .ok (st1, false)

/-- The item loop `for item in items` (core.py line 114), stopping at the
first `break`. -/
def processItems (cfg : Cfg) (st : SState) :
    List Item → Except SErr (SState × Bool)
  | [] => .ok (st, false)
  | item :: rest =>
    match itemStep cfg st item with
    | .error e => .error e
    | .ok (st1, brk) =>
      if brk then .ok (st1, true) else processItems cfg st1 rest

/-- The page loop `for page in response_generator` (core.py lines 109-158):
an empty item list breaks, and after each page the loop re-checks the
output limit and the search-space ceiling (line 157). -/
def processPages (cfg : Cfg) (st : SState) :
    List (List Item) → Except SErr SState
  | [] => .ok st
  | items :: rest =>
    if items = [] then .ok st
    else
      match processItems cfg st items with
      | .error e => .error e
      | .ok (st1, _) =>
        if (st1.papers.length : Int) ≥ cfg.output_limit ∨
            st1.total_checked > SEARCH_SPACE_LIMIT
        then .ok st1
        else processPages cfg st1 rest

/-- `safe_works_call` (core.py lines 9-19), unrolled for `retries = 3`:
`works attempt` is the outcome of the `attempt`-th `cr.works(...)` call.
Returns the result, the trace of `time.sleep(2 * (attempt + 1))` waits,
and the number of attempts made. -/
def safe_works_call (works : Nat → Except Nat (List (List Item))) :
    Except Nat (List (List Item)) × List Nat × Nat :=
  match works 0 with
  | .ok r => (.ok r, [], 1)
  | .error _ =>
    match works 1 with
    | .ok r => (.ok r, [2], 2)
    | .error _ =>
      match works 2 with
      | .ok r => (.ok r, [2, 4], 3)
      | .error e => (.error e, [2, 4], 3)

/-- The keyword-group loop `for kw_chunk in chunk_keywords(...)`
(core.py lines 84-161).  `fetch i` gives the outcomes of the successive
`cr.works` attempts for the `i`-th group (the group's query string and
filter only parameterise that outbound request); the second component is
the trace of groups for which the source was actually called.  A request
failure surviving `safe_works_call`, or an `IndexError` from the record
loop, is re-raised by `except Exception as e: raise e` (lines 160-161). -/
def processGroups (cfg : Cfg) (fetch : Nat → Nat → Except Nat (List (List Item))) :
    SState → Nat → List (List Str) → Except SErr SState × List Nat
  | st, _, [] => (.ok st, [])
  | st, i, _chunk :: rest =>
    if st.total_checked ≥ SEARCH_SPACE_LIMIT then (.ok st, [])
    else
      match (safe_works_call (fetch i)).1 with
      | .error e => (.error (.sourceError e), [i])
      | .ok pages =>
        match processPages cfg st pages with
        | .error e => (.error e, [i])
        | .ok st1 =>
          match processGroups cfg fetch st1 (i + 1) rest with
          | (r, tr) => (r, i :: tr)

/-- Strict "ranks strictly earlier" order used by the result sort:
higher `Match_Count` first, ties by higher `Year`. -/
def RankBefore (a b : Paper) : Prop :=
  b.Match_Count < a.Match_Count ∨
    (a.Match_Count = b.Match_Count ∧ b.Year < a.Year)

instance : DecidablePred fun p : Paper × Paper => RankBefore p.1 p.2 :=
  fun _ => by unfold RankBefore; infer_instance

instance (a b : Paper) : Decidable (RankBefore a b) := by
  unfold RankBefore; infer_instance

/-- Stable insertion: `x` goes in front of the first element that does not
rank strictly before it. -/
def insertRanked (x : Paper) : List Paper → List Paper
  | [] => [x]
  | y :: ys => if RankBefore y x then y :: insertRanked x ys else x :: y :: ys

/-- `df.sort_values(['Match_Count', 'Year'], ascending=[False, False])`
(core.py line 168).  A multi-column pandas `sort_values` sorts with
`np.lexsort`, a stable sort; it is modelled as a stable insertion sort on
the key (`Match_Count` descending, `Year` descending). -/
def rank_papers : List Paper → List Paper
  | [] => []
  | x :: xs => insertRanked x (rank_papers xs)

/-- The value `run_search` hands back on success: `raw` is
`list(relevant_papers_dict.values())` in insertion order, `results` the
rows of the returned DataFrame in final order, plus the final counter and
the full progress-callback trace. -/
structure SearchOk where
  raw : List Paper
  results : List Paper
  total_checked : Nat
  progressCalls : List (Nat × Nat)
deriving DecidableEq

/-- The `relevant_papers_dict = {}`, `total_checked = 0` initial state. -/
def initState : SState := ⟨[], 0, []⟩

/-- The locals of `run_search` read inside the loops:
`allowed_prefixes = [PUBLISHER_MAP[p] for p in selected_publishers] if
selected_publishers else []` (core.py line 81) plus the call parameters. -/
def cfgOf (keywords : List Str) (threshold output_limit : Int)
    (selected_publishers : List Publisher) (hasCallback : Bool) : Cfg :=
  ⟨keywords, threshold, output_limit,
   (if selected_publishers ≠ []
    then selected_publishers.map PUBLISHER_MAP else []),
   hasCallback⟩

/-- The tail of `run_search` after the group loop (core.py lines 163-170):
the final `progress_callback(total_checked, len(relevant_papers_dict))`
call, `df = pd.DataFrame(list(relevant_papers_dict.values()))`, and the
sort guarded by `if not df.empty`; an exception from the loop propagates. -/
def finishSearch (hasCallback : Bool) :
    Except SErr SState × List Nat → Except SErr SearchOk × List Nat
  | (.error e, tr) => (.error e, tr)
  | (.ok st, tr) =>
    let progressCalls :=
      if hasCallback
      then st.progress ++ [(st.total_checked, st.papers.length)]
      else st.progress
    let raw := st.papers.map Prod.snd
    let results := if raw = [] then raw else rank_papers raw
    (.ok ⟨raw, results, st.total_checked, progressCalls⟩, tr)

/-- `run_search` (core.py lines 57-170).  `fetch` abstracts the Crossref
boundary (per group index, per retry attempt); `hasCallback` models
whether a `progress_callback` was supplied; the optional year range only
parameterises the outbound filter and is absorbed into `fetch`.  The
second component is the trace of groups for which a network call was
issued. -/
def run_search (fetch : Nat → Nat → Except Nat (List (List Item)))
    (keywords : List Str) (threshold output_limit : Int)
    (selected_publishers : List Publisher) (hasCallback : Bool) :
    Except SErr SearchOk × List Nat :=
  if keywords.length > MAX_KEYWORDS then (.error .validationError, [])
  else
    finishSearch hasCallback
      (processGroups
        (cfgOf keywords threshold output_limit selected_publishers hasCallback)
        fetch initState 0 (chunk_keywords keywords))

/-- One record's effect on `relevant_papers_dict`: either unchanged, or a
single fresh identifier appended whose stored row satisfies the acceptance
facts of lines 135-152 (match count stored from the raw `matches` list,
acceptance decided on the deduplicated one). -/
def PapersEvolve (cfg : Cfg) (old new : List (Str × Paper)) : Prop :=
  new = old ∨
    ∃ d p, List.lookup d old = none ∧ p.DOI = d ∧
      p.Match_Count = (matchesFor cfg.keywords p.Title).length ∧
      ((matchesFor cfg.keywords p.Title).dedup.length : Int) ≥ cfg.threshold ∧
      new = old ++ [(d, p)]

/-- Invariant of `relevant_papers_dict`: identifiers are unique keys, every
row is stored under its own identifier, and every row satisfies the
acceptance facts. -/
def PapersInv (cfg : Cfg) (l : List (Str × Paper)) : Prop :=
  (l.map Prod.fst).Nodup ∧
  ∀ pr ∈ l, pr.2.DOI = pr.1 ∧
    pr.2.Match_Count = (matchesFor cfg.keywords pr.2.Title).length ∧
    ((matchesFor cfg.keywords pr.2.Title).dedup.length : Int) ≥ cfg.threshold

/-- The character-level effect of the chain of `text.replace(sub, normal)`
calls: fold the replacement pairs over one character. -/
def replaceAll (c : Char) : Char :=
  subscript_map.foldl (fun a p => if a = p.1 then p.2 else a) c

/-- The character-level normalizer: lowercase, then subscript folding. -/
def normChar (c : Char) : Char := replaceAll (Char.toLower c)

/-- Non-strict "may come no later than" order on the sort key. -/
def RankGE (a b : Paper) : Prop :=
  b.Match_Count < a.Match_Count ∨
    (a.Match_Count = b.Match_Count ∧ b.Year ≤ a.Year)

/-- Boolean test for "has exactly this sort key". -/
def sameKey (mc : Nat) (y : Int) (p : Paper) : Bool :=
  p.Match_Count == mc && p.Year == y

/-- Rows of the returned DataFrame of a completed call (empty on error);
used to state concrete runs. -/
def okResults (r : Except SErr SearchOk × List Nat) : List Paper :=
  match r.1 with
  | .ok o => o.results
  | .error _ => []

/-- Final `total_checked` of a completed call (0 on error). -/
def okTotal (r : Except SErr SearchOk × List Nat) : Nat :=
  match r.1 with
  | .ok o => o.total_checked
  | .error _ => 0

/-- Concrete record: DOI "1", title "a". -/
def itemA : Item := ⟨some ("1".toList), some [("a".toList)], none, none, none⟩

/-- Concrete record: DOI "2", title "d". -/
def itemD : Item := ⟨some ("2".toList), some [("d".toList)], none, none, none⟩

/-- Concrete record: DOI "1", title "z" (matches nothing below). -/
def itemZ : Item := ⟨some ("1".toList), some [("z".toList)], none, none, none⟩

/-- Concrete record with a DOI but no title field. -/
def itemNoTitle : Item := ⟨some ("x".toList), none, none, none, none⟩

/-- Concrete record whose `title` field is a present empty list. -/
def itemEmptyTitle : Item := ⟨some ("1".toList), some [], none, none, none⟩

/-- Concrete record with matching title and a present empty `author` list. -/
def itemEmptyAuthor : Item :=
  ⟨some ("1".toList), some [("a".toList)], none, some [], none⟩

/-- Concrete record with non-matching title and empty `author` list. -/
def itemZEmptyAuthor : Item :=
  ⟨some ("1".toList), some [("zz".toList)], none, some [], none⟩

/-- Source oracle: group 0 returns one page `[itemA]`, later groups one
page `[itemD]`. -/
def fetchTwoGroups : Nat → Nat → Except Nat (List (List Item))
  | 0, _ => .ok [[itemA]]
  | _ + 1, _ => .ok [[itemD]]

/-- Source oracle: one page of 2001 title-less records. -/
def fetchCeiling : Nat → Nat → Except Nat (List (List Item)) :=
  fun _ _ => .ok [List.replicate 2001 itemNoTitle]

/-- Source oracle: one page where DOI "1" occurs twice, first with the
non-matching title, then with the matching one. -/
def fetchDupDOI : Nat → Nat → Except Nat (List (List Item)) :=
  fun _ _ => .ok [[itemZ, itemA]]

/-- Source oracle: one page `[itemA]`. -/
def fetchOneA : Nat → Nat → Except Nat (List (List Item)) :=
  fun _ _ => .ok [[itemA]]

/-- Source oracle: group 0 returns one page `[itemA]` (accepted below);
every request attempt for any later group fails with code 7. -/
def fetchFailSecond : Nat → Nat → Except Nat (List (List Item))
  | 0, _ => .ok [[itemA]]
  | _ + 1, _ => .error 7

/-- Source oracle: one page `[itemZEmptyAuthor]`. -/
def fetchZEmptyAuthor : Nat → Nat → Except Nat (List (List Item)) :=
  fun _ _ => .ok [[itemZEmptyAuthor]]

/-- The row stored for `itemA` under keywords `["a"]`. -/
def paperA : Paper :=
  ⟨"1".toList, "a".toList, [], [], 0, "a".toList, 1, []⟩

/-- The state after accepting `itemA` from the initial state. -/
def stA : SState := ⟨[(("1".toList), paperA)], 1, []⟩

/-- A throwaway row used to exercise dict-binding preservation. -/
def paperDummy : Paper := ⟨"d".toList, [], [], [], 0, [], 0, []⟩

theorem chunk_keywords_cons_ne_nil (k : Str) (ks : List Str) :
    chunk_keywords (k :: ks) ≠ [] := by
  match ks with
  | [] => simp [chunk_keywords]
  | [a] => simp [chunk_keywords]
  | a :: b :: rest => simp [chunk_keywords]

/-- Containment `strIn` agrees with the existence of a split. -/
theorem strIn_iff (needle hay : Str) :
    strIn needle hay = true ↔ ∃ s u, s ++ needle ++ u = hay := by
  induction hay with
  | nil =>
    simp only [strIn, List.isEmpty_iff]
    constructor
    · rintro rfl; exact ⟨[], [], rfl⟩
    · rintro ⟨s, u, h⟩
      have hlen := congrArg List.length h
      simp only [List.length_append, List.length_nil] at hlen
      exact List.eq_nil_of_length_eq_zero (by omega)
  | cons c rest ih =>
    simp only [strIn, Bool.or_eq_true, List.isPrefixOf_iff_prefix, ih]
    constructor
    · rintro (⟨u, hu⟩ | ⟨s, u, rfl⟩)
      · exact ⟨[], u, by simpa using hu⟩
      · exact ⟨c :: s, u, rfl⟩
    · rintro ⟨s, u, h⟩
      cases s with
      | nil => exact Or.inl ⟨u, by simpa using h⟩
      | cons d s' =>
        cases h
        exact Or.inr ⟨s', u, by simp⟩

theorem foldl_replace_eq_map (pairs : List (Char × Char)) (l : Str) :
    pairs.foldl (fun acc p => acc.map fun c => if c = p.1 then p.2 else c) l
      = l.map fun c => pairs.foldl (fun a p => if a = p.1 then p.2 else a) c := by
  induction pairs generalizing l with
  | nil => simp
  | cons p ps ih =>
    simp only [List.foldl_cons, ih, List.map_map]
    rfl

theorem normalise_text_eq_map (text : Str) :
    normalise_text text = text.map normChar := by
  unfold normalise_text
  split
  · simp_all
  · rw [foldl_replace_eq_map, List.map_map]
    apply List.map_congr_left
    intro c _
    simp only [Function.comp]
    unfold normChar replaceAll
    with_reducible rfl

theorem replaceAll_eq_self (c : Char)
    (h2 : c ≠ '₂') (h3 : c ≠ '₃') (h1 : c ≠ '₁') (h0 : c ≠ '₀')
    (h4 : c ≠ '₄') (h5 : c ≠ '₅') (h6 : c ≠ '₆') (h7 : c ≠ '₇')
    (h8 : c ≠ '₈') (h9 : c ≠ '₉') : replaceAll c = c := by
  simp [replaceAll, subscript_map, h2, h3, h1, h0, h4, h5, h6, h7, h8, h9]

set_option maxHeartbeats 1000000 in
theorem normChar_idem (c : Char) : normChar (normChar c) = normChar c := by
  by_cases hu : 65 ≤ c.toNat ∧ c.toNat ≤ 90
  · obtain ⟨hl1, hl2⟩ := hu
    have hl : Char.toLower c = Char.ofNat (c.toNat + 32) := by
      unfold Char.toLower
      rw [if_pos ⟨hl1, hl2⟩]
    simp only [normChar, hl]
    generalize c.toNat = n at hl1 hl2 ⊢
    interval_cases n <;> decide
  · have hl : Char.toLower c = c := by
      unfold Char.toLower
      rw [if_neg hu]
    by_cases hs : c = '₂' ∨ c = '₃' ∨ c = '₁' ∨ c = '₀' ∨ c = '₄' ∨
        c = '₅' ∨ c = '₆' ∨ c = '₇' ∨ c = '₈' ∨ c = '₉'
    · rcases hs with rfl | rfl | rfl | rfl | rfl | rfl | rfl | rfl | rfl | rfl <;>
        decide
    · push_neg at hs
      obtain ⟨n2, n3, n1, n0, n4, n5, n6, n7, n8, n9⟩ := hs
      have hc : normChar c = c := by
        rw [normChar, hl, replaceAll_eq_self c n2 n3 n1 n0 n4 n5 n6 n7 n8 n9]
      rw [hc]
      exact hc

/-- C9: the Normalizer is idempotent: `normalize(normalize(x)) ==
normalize(x)` for every input string. -/
theorem C9_normalise_idempotent (x : Str) :
    normalise_text (normalise_text x) = normalise_text x := by
  rw [normalise_text_eq_map, normalise_text_eq_map]
  induction x with
  | nil => rfl
  | cons c cs ih =>
    simp only [List.map_cons]
    rw [normChar_idem, ih]

/-- C8: the Matcher returns true iff the keyword occurs in the title, or
the keyword ends in "s" and the keyword minus its trailing "s" occurs in
the title, or the keyword does not end in "s" and the keyword plus "s"
occurs in the title; in particular the plural stripping applies to the
keyword (keyword "graphenes" matches a title containing "graphene"). -/
theorem C8_matcher_rule :
    (∀ k t : Str, check_keyword_match k t = true ↔
      ((∃ s u, s ++ k ++ u = t) ∨
       (endsWithS k = true ∧ ∃ s u, s ++ k.dropLast ++ u = t) ∨
       (endsWithS k = false ∧ ∃ s u, s ++ (k ++ ['s']) ++ u = t))) ∧
    check_keyword_match ("graphenes".toList)
      ("cvd growth of graphene on copper".toList) = true := by
  refine ⟨fun k t => ?_, by decide⟩
  unfold check_keyword_match
  by_cases h1 : strIn k t = true
  · rw [if_pos h1]
    exact ⟨fun _ => Or.inl ((strIn_iff k t).mp h1), fun _ => rfl⟩
  · rw [if_neg h1]
    cases hE : endsWithS k
    · rw [if_neg (by simp [hE])]
      by_cases h3 : strIn (k ++ ['s']) t = true
      · rw [if_pos (by simp [hE, h3])]
        exact ⟨fun _ => Or.inr (Or.inr ⟨rfl, (strIn_iff _ t).mp h3⟩),
          fun _ => rfl⟩
      · rw [if_neg (by simp [hE, h3])]
        constructor
        · intro h; exact absurd h (by decide)
        · rintro (h | ⟨he, h⟩ | ⟨he, h⟩)
          · exact absurd ((strIn_iff k t).mpr h) h1
          · exact Bool.noConfusion he
          · exact absurd ((strIn_iff _ t).mpr h) h3
    · by_cases h2 : strIn k.dropLast t = true
      · rw [if_pos (by simp [hE, h2])]
        exact ⟨fun _ => Or.inr (Or.inl ⟨rfl, (strIn_iff _ t).mp h2⟩),
          fun _ => rfl⟩
      · rw [if_neg (by simp [hE, h2])]
        rw [if_neg (by simp [hE])]
        constructor
        · intro h; exact absurd h (by decide)
        · rintro (h | ⟨he, h⟩ | ⟨he, h⟩)
          · exact absurd ((strIn_iff k t).mpr h) h1
          · exact absurd ((strIn_iff _ t).mpr h) h2
          · exact Bool.noConfusion he

/-- C7: a keyword list with more than 10 entries makes `run_search` raise
the validation error immediately: for every fetch oracle the result is the
validation error and the trace of issued network calls is empty. -/
theorem C7_validation_before_network
    (fetch : Nat → Nat → Except Nat (List (List Item)))
    (keywords : List Str) (threshold output_limit : Int)
    (selected_publishers : List Publisher) (hasCallback : Bool)
    (h : keywords.length > 10) :
    run_search fetch keywords threshold output_limit selected_publishers
      hasCallback = (.error .validationError, []) := by
  have h' : keywords.length > MAX_KEYWORDS := h
  simp [run_search, h']

theorem C7_validation_before_network_witness :
    (List.replicate 11 ("k".toList)).length > 10 ∧
    run_search (fun _ _ => .ok []) (List.replicate 11 ("k".toList)) 1 1 []
      false = (.error .validationError, []) :=
  ⟨by decide,
   C7_validation_before_network (fun _ _ => .ok []) _ 1 1 [] false (by decide)⟩

/-- C6: when every request attempt for a keyword group fails, the retry
wrapper makes exactly 3 attempts, sleeping 2 s after the first failure and
4 s after the second, and raises the last failure (part 1); the group loop
propagates that failure from any state it has reached — whatever
candidates `st.papers` already holds and whichever group index is the
failing one — returning only the error, so the accepted candidates are
discarded (part 2); and `run_search` hands any such group-loop failure to
its caller unchanged, returning no ResultSet (part 3). -/
theorem C6_retry_and_propagation (e0 e1 e2 : Nat) :
    (∀ works : Nat → Except Nat (List (List Item)),
      works 0 = .error e0 → works 1 = .error e1 → works 2 = .error e2 →
      safe_works_call works = (.error e2, [2, 4], 3)) ∧
    (∀ (cfg : Cfg) (fetch : Nat → Nat → Except Nat (List (List Item)))
        (st : SState) (i : Nat) (gs : List (List Str)),
      st.total_checked < SEARCH_SPACE_LIMIT → gs ≠ [] →
      fetch i 0 = .error e0 → fetch i 1 = .error e1 → fetch i 2 = .error e2 →
      processGroups cfg fetch st i gs = (.error (.sourceError e2), [i])) ∧
    (∀ (fetch : Nat → Nat → Except Nat (List (List Item)))
        (keywords : List Str) (threshold output_limit : Int)
        (selected_publishers : List Publisher) (hasCallback : Bool)
        (tr : List Nat),
      ¬ keywords.length > MAX_KEYWORDS →
      processGroups
          (cfgOf keywords threshold output_limit selected_publishers
            hasCallback)
          fetch initState 0 (chunk_keywords keywords)
        = (.error (.sourceError e2), tr) →
      run_search fetch keywords threshold output_limit selected_publishers
        hasCallback = (.error (.sourceError e2), tr)) := by
  refine ⟨?_, ?_, ?_⟩
  · intro works h0 h1 h2
    unfold safe_works_call
    rw [h0, h1, h2]
  · intro cfg fetch st i gs hst hne h0 h1 h2
    have hsw : safe_works_call (fetch i) = (.error e2, [2, 4], 3) := by
      unfold safe_works_call
      rw [h0, h1, h2]
    cases gs with
    | nil => exact absurd rfl hne
    | cons g rest =>
      unfold processGroups
      rw [if_neg (by omega)]
      rw [hsw]
  · intro fetch keywords thr lim pubs cb tr hlen hpg
    unfold run_search
    rw [if_neg hlen, hpg]
    rfl

theorem C6_retry_and_propagation_witness :
    safe_works_call (fun _ => .error 7) = (.error 7, [2, 4], 3) ∧
    processGroups ⟨[("a".toList)], 1, 10, [], false⟩ fetchFailSecond stA 1
      [[("d".toList)]] = (.error (.sourceError 7), [1]) ∧
    run_search fetchFailSecond
      [("a".toList), ("b".toList), ("c".toList), ("d".toList)] 1 10 [] false
      = (.error (.sourceError 7), [0, 1]) :=
  ⟨(C6_retry_and_propagation 7 7 7).1 (fun _ => .error 7) rfl rfl rfl,
   (C6_retry_and_propagation 7 7 7).2.1 ⟨[("a".toList)], 1, 10, [], false⟩
     fetchFailSecond stA 1 [[("d".toList)]] (by decide) (by decide)
     rfl rfl rfl,
   (C6_retry_and_propagation 7 7 7).2.2 fetchFailSecond
     [("a".toList), ("b".toList), ("c".toList), ("d".toList)] 1 10 [] false
     [0, 1] (by decide) (by rfl)⟩

theorem rankBefore_ge {a b : Paper} (h : RankBefore a b) : RankGE a b := by
  unfold RankBefore at h
  unfold RankGE
  omega

theorem not_rankBefore_ge {a b : Paper} (h : ¬ RankBefore b a) : RankGE a b := by
  unfold RankBefore at h
  unfold RankGE
  omega

theorem rankGE_trans {a b c : Paper} (h1 : RankGE a b) (h2 : RankGE b c) :
    RankGE a c := by
  unfold RankGE at *
  omega

theorem insertRanked_perm (x : Paper) :
    ∀ l : List Paper, (insertRanked x l).Perm (x :: l) := by
  intro l
  induction l with
  | nil => exact List.Perm.refl _
  | cons y ys ih =>
    unfold insertRanked
    split
    · exact (ih.cons y).trans (List.Perm.swap x y ys)
    · exact List.Perm.refl _

theorem rank_papers_perm : ∀ l : List Paper, (rank_papers l).Perm l := by
  intro l
  induction l with
  | nil => exact List.Perm.refl _
  | cons x xs ih => exact (insertRanked_perm x (rank_papers xs)).trans (ih.cons x)

theorem pairwise_insertRanked {x : Paper} :
    ∀ {l : List Paper}, l.Pairwise RankGE →
      (insertRanked x l).Pairwise RankGE := by
  intro l
  induction l with
  | nil => intro _; simp [insertRanked]
  | cons y ys ih =>
    intro h
    rcases List.pairwise_cons.mp h with ⟨hy, hys⟩
    unfold insertRanked
    by_cases hb : RankBefore y x
    · rw [if_pos hb]
      refine List.pairwise_cons.mpr ⟨?_, ih hys⟩
      intro z hz
      rcases List.mem_cons.mp ((insertRanked_perm x ys).mem_iff.mp hz) with
        rfl | hz'
      · exact rankBefore_ge hb
      · exact hy z hz'
    · rw [if_neg hb]
      refine List.pairwise_cons.mpr ⟨?_, h⟩
      intro z hz
      rcases List.mem_cons.mp hz with rfl | hz'
      · exact not_rankBefore_ge hb
      · exact rankGE_trans (not_rankBefore_ge hb) (hy z hz')

theorem pairwise_rank_papers : ∀ l : List Paper,
    (rank_papers l).Pairwise RankGE := by
  intro l
  induction l with
  | nil => simp [rank_papers]
  | cons x xs ih =>
    unfold rank_papers
    exact pairwise_insertRanked ih

theorem sameKey_false_of_rankBefore {mc : Nat} {y : Int} {z x : Paper}
    (hb : RankBefore z x) (hx : sameKey mc y x = true) :
    sameKey mc y z = false := by
  rw [sameKey, Bool.and_eq_true, beq_iff_eq, beq_iff_eq] at hx
  have hne : ¬ (z.Match_Count = mc ∧ z.Year = y) := by
    unfold RankBefore at hb
    omega
  rw [sameKey]
  rcases Decidable.not_and_iff_or_not.mp hne with h | h <;> simp [beq_iff_eq, h]

theorem filter_insertRanked (mc : Nat) (y : Int) (x : Paper) :
    ∀ l : List Paper, (insertRanked x l).filter (sameKey mc y)
      = if sameKey mc y x then x :: l.filter (sameKey mc y)
        else l.filter (sameKey mc y) := by
  intro l
  induction l with
  | nil =>
    simp only [insertRanked, List.filter]
    cases sameKey mc y x <;> simp
  | cons z zs ih =>
    unfold insertRanked
    by_cases hb : RankBefore z x
    · rw [if_pos hb]
      by_cases hx : sameKey mc y x = true
      · have hz := sameKey_false_of_rankBefore hb hx
        simp only [List.filter_cons, hz, ih, hx, if_true, Bool.false_eq_true,
          if_false]
      · simp only [List.filter_cons, ih, hx, if_false]
        split <;> rfl
    · rw [if_neg hb]
      by_cases hx : sameKey mc y x = true <;>
        simp only [List.filter_cons, hx, if_true, Bool.false_eq_true, if_false]

theorem rank_papers_filter (mc : Nat) (y : Int) :
    ∀ l : List Paper,
      (rank_papers l).filter (sameKey mc y) = l.filter (sameKey mc y) := by
  intro l
  induction l with
  | nil => rfl
  | cons x xs ih =>
    unfold rank_papers
    rw [filter_insertRanked, ih, List.filter_cons]

theorem length_insertRanked (x : Paper) :
    ∀ l : List Paper, (insertRanked x l).length = l.length + 1 := by
  intro l
  induction l with
  | nil => rfl
  | cons y ys ih =>
    unfold insertRanked
    split
    · simp [ih]
    · rfl

theorem length_rank_papers : ∀ l : List Paper,
    (rank_papers l).length = l.length := by
  intro l
  induction l with
  | nil => rfl
  | cons x xs ih =>
    unfold rank_papers
    rw [length_insertRanked, ih, List.length_cons]

/-- Shape of a successful `run_search` call: the final state of the group
loop determines every field of the returned value. -/
theorem run_search_ok {fetch : Nat → Nat → Except Nat (List (List Item))}
    {keywords : List Str} {thr lim : Int} {pubs : List Publisher} {cb : Bool}
    {out : SearchOk} {tr : List Nat}
    (h : run_search fetch keywords thr lim pubs cb = (.ok out, tr)) :
    ∃ st : SState,
      processGroups (cfgOf keywords thr lim pubs cb) fetch initState 0
          (chunk_keywords keywords) = (.ok st, tr) ∧
      out.raw = st.papers.map Prod.snd ∧
      out.results = (if st.papers.map Prod.snd = []
        then st.papers.map Prod.snd
        else rank_papers (st.papers.map Prod.snd)) ∧
      out.total_checked = st.total_checked ∧
      out.progressCalls = (if cb
        then st.progress ++ [(st.total_checked, st.papers.length)]
        else st.progress) ∧
      ¬ keywords.length > MAX_KEYWORDS := by
  unfold run_search at h
  split at h
  · exact absurd (congrArg Prod.fst h) (by simp)
  · next hv =>
    rcases hpr : processGroups (cfgOf keywords thr lim pubs cb) fetch initState
        0 (chunk_keywords keywords) with ⟨res, tr2⟩
    rw [hpr] at h
    cases res with
    | error e => exact absurd (congrArg Prod.fst h) (by simp [finishSearch])
    | ok st =>
      simp only [finishSearch, Prod.mk.injEq, Except.ok.injEq] at h
      obtain ⟨h1, h2⟩ := h
      subst h2
      subst h1
      exact ⟨st, rfl, rfl, rfl, rfl, rfl, hv⟩

/-- C2: the ResultSet of a successful `run_search` is ordered by
`RankGE` (non-increasing match count, ties non-increasing by year), and
the sort is stable: for each sort key, the sub-list of rows with that key
is exactly the sub-list of the insertion-ordered accepted candidates with
that key. -/
theorem C2_ranked_stable_sort
    (fetch : Nat → Nat → Except Nat (List (List Item)))
    (keywords : List Str) (thr lim : Int) (pubs : List Publisher) (cb : Bool)
    (out : SearchOk) (tr : List Nat)
    (h : run_search fetch keywords thr lim pubs cb = (.ok out, tr)) :
    out.results.Pairwise RankGE ∧
    ∀ mc y, out.results.filter (sameKey mc y) = out.raw.filter (sameKey mc y) := by
  obtain ⟨st, _, hraw, hres, _, _, _⟩ := run_search_ok h
  constructor
  · rw [hres]
    split
    · next he => rw [he]; exact List.Pairwise.nil
    · exact pairwise_rank_papers _
  · intro mc y
    rw [hres, hraw]
    split
    · rfl
    · exact rank_papers_filter mc y _

theorem C2_ranked_stable_sort_witness :
    (⟨[], [], 0, [(0, 0)]⟩ : SearchOk).results.Pairwise RankGE ∧
    ∀ mc y, (⟨[], [], 0, [(0, 0)]⟩ : SearchOk).results.filter (sameKey mc y)
      = (⟨[], [], 0, [(0, 0)]⟩ : SearchOk).raw.filter (sameKey mc y) :=
  C2_ranked_stable_sort (fun _ _ => .ok []) [("a".toList)] 1 1 [] true
    ⟨[], [], 0, [(0, 0)]⟩ [0] (by rfl)

theorem counted_papers (cfg : Cfg) (st : SState) :
    (counted cfg st).papers = st.papers := rfl

theorem counted_total (cfg : Cfg) (st : SState) :
    (counted cfg st).total_checked = st.total_checked + 1 := rfl

theorem appendPaper_papers (st : SState) (doi : Str) (paper : Paper) :
    (appendPaper st doi paper).papers = st.papers ++ [(doi, paper)] := rfl

theorem appendPaper_total (st : SState) (doi : Str) (paper : Paper) :
    (appendPaper st doi paper).total_checked = st.total_checked := rfl

theorem appendPaper_progress (st : SState) (doi : Str) (paper : Paper) :
    (appendPaper st doi paper).progress = st.progress := rfl

theorem counted_progress_mem {cfg : Cfg} {st : SState} {e : Nat × Nat}
    (he : e ∈ (counted cfg st).progress) :
    e ∈ st.progress ∨ e = (st.total_checked + 1, st.papers.length) := by
  simp only [counted] at he
  split at he
  · rcases List.mem_append.mp he with h | h
    · exact Or.inl h
    · exact Or.inr (List.mem_singleton.mp h)
  · exact Or.inl he

theorem lookup_append_of_some {l l2 : List (Str × Paper)} {d : Str} {p : Paper}
    (h : List.lookup d l = some p) : List.lookup d (l ++ l2) = some p := by
  induction l with
  | nil => simp [List.lookup] at h
  | cons kv t ih =>
    obtain ⟨k, v⟩ := kv
    simp only [List.cons_append, List.lookup] at h ⊢
    cases hb : d == k with
    | true => rw [hb] at h; exact h
    | false => rw [hb] at h; exact ih h

theorem lookup_none_not_mem {l : List (Str × Paper)} {d : Str}
    (h : List.lookup d l = none) : d ∉ l.map Prod.fst := by
  induction l with
  | nil => simp
  | cons kv t ih =>
    obtain ⟨k, v⟩ := kv
    simp only [List.lookup] at h
    cases hb : d == k with
    | true => rw [hb] at h; simp at h
    | false =>
      rw [hb] at h
      simp only [List.map_cons, List.mem_cons]
      rintro (rfl | hm)
      · simp at hb
      · exact ih h hm

theorem buildPaper_spec {doi title : Str} {kwMatches : List Str} {item : Item}
    {p : Paper} (h : buildPaper doi title kwMatches item = .ok p) :
    p.DOI = doi ∧ p.Title = title ∧ p.Match_Count = kwMatches.length := by
  unfold buildPaper at h
  split at h
  · exact absurd h (by simp)
  · split at h
    · exact absurd h (by simp)
    · split at h
      · exact absurd h (by simp)
      · simp only [Except.ok.injEq] at h
        subst h
        exact ⟨rfl, rfl, rfl⟩

/-- Full effect of one `for item in items` iteration on the state. -/
theorem itemStep_spec {cfg : Cfg} {st : SState} {item : Item} {st1 : SState}
    {brk : Bool} (h : itemStep cfg st item = .ok (st1, brk)) :
    PapersEvolve cfg st.papers st1.papers ∧
    (brk = false → st1.papers = st.papers ∨
      (st1.papers.length : Int) < cfg.output_limit) ∧
    (st1.total_checked = st.total_checked ∨
      st1.total_checked = st.total_checked + 1) ∧
    (st.total_checked ≤ SEARCH_SPACE_LIMIT →
      st1.total_checked ≤ SEARCH_SPACE_LIMIT + 1 ∧
      (brk = false → st1.total_checked ≤ SEARCH_SPACE_LIMIT)) ∧
    ((∀ e ∈ st.progress, e.1 ≤ st.total_checked) →
      ∀ e ∈ st1.progress, e.1 ≤ st1.total_checked) := by
  simp only [itemStep] at h
  split at h
  · simp only [Except.ok.injEq, Prod.mk.injEq] at h
    obtain ⟨rfl, rfl⟩ := h
    exact ⟨Or.inl rfl, fun _ => Or.inl rfl, Or.inl rfl,
      fun hle => ⟨by omega, fun _ => hle⟩, fun hp => hp⟩
  · rename_i doi hdoi
    split at h
    · simp only [Except.ok.injEq, Prod.mk.injEq] at h
      obtain ⟨rfl, rfl⟩ := h
      exact ⟨Or.inl rfl, fun _ => Or.inl rfl, Or.inl rfl,
        fun hle => ⟨by omega, fun _ => hle⟩, fun hp => hp⟩
    · split at h
      · simp only [Except.ok.injEq, Prod.mk.injEq] at h
        obtain ⟨rfl, rfl⟩ := h
        exact ⟨Or.inl rfl, fun _ => Or.inl rfl, Or.inl rfl,
          fun hle => ⟨by omega, fun _ => hle⟩, fun hp => hp⟩
      · rename_i hdup
        split at h
        · simp only [Except.ok.injEq, Prod.mk.injEq] at h
          obtain ⟨rfl, rfl⟩ := h
          exact ⟨Or.inl rfl, fun _ => Or.inl rfl, Or.inl rfl,
            fun hle => ⟨by omega, fun _ => hle⟩, fun hp => hp⟩
        · split at h
          · rename_i htc
            simp only [Except.ok.injEq, Prod.mk.injEq] at h
            obtain ⟨rfl, rfl⟩ := h
            refine ⟨Or.inl (counted_papers _ _),
              fun hb => absurd hb (by decide),
              Or.inr (counted_total _ _), fun hle => ?_, fun hp e he => ?_⟩
            · rw [counted_total]
              exact ⟨by omega, fun hb => absurd hb (by decide)⟩
            · rcases counted_progress_mem he with h' | rfl
              · rw [counted_total]
                exact Nat.le_succ_of_le (hp e h')
              · rw [counted_total]
          · rename_i htc
            rw [counted_total] at htc
            split at h
            · exact absurd h (by simp)
            · rename_i title hti
              split at h
              · simp only [Except.ok.injEq, Prod.mk.injEq] at h
                obtain ⟨rfl, rfl⟩ := h
                refine ⟨Or.inl (counted_papers _ _), fun _ => Or.inl (counted_papers _ _),
                  Or.inr (counted_total _ _), fun hle => ?_, fun hp e he => ?_⟩
                · rw [counted_total]
                  exact ⟨by omega, fun _ => by omega⟩
                · rcases counted_progress_mem he with h' | rfl
                  · rw [counted_total]
                    exact Nat.le_succ_of_le (hp e h')
                  · rw [counted_total]
              · rename_i htne
                split at h
                · rename_i hthr
                  split at h
                  · exact absurd h (by simp)
                  · rename_i paper hbp
                    obtain ⟨hD, hT, hM⟩ := buildPaper_spec hbp
                    split at h
                    · rename_i hlim
                      simp only [Except.ok.injEq, Prod.mk.injEq] at h
                      obtain ⟨rfl, rfl⟩ := h
                      refine ⟨Or.inr ⟨doi, paper,
                          Option.not_isSome_iff_eq_none.mp hdup, hD,
                          by rw [hT]; exact hM, by rw [hT]; exact hthr,
                          by rw [appendPaper_papers, counted_papers]⟩,
                        fun hb => absurd hb (by decide),
                        Or.inr (by rw [appendPaper_total, counted_total]),
                        fun hle => ?_, fun hp e he => ?_⟩
                      · rw [appendPaper_total, counted_total]
                        exact ⟨by omega, fun hb => absurd hb (by decide)⟩
                      · rw [appendPaper_progress] at he
                        rw [appendPaper_total, counted_total]
                        rcases counted_progress_mem he with h' | rfl
                        · exact Nat.le_succ_of_le (hp e h')
                        · rfl
                    · rename_i hlim
                      simp only [Except.ok.injEq, Prod.mk.injEq] at h
                      obtain ⟨rfl, rfl⟩ := h
                      refine ⟨Or.inr ⟨doi, paper,
                          Option.not_isSome_iff_eq_none.mp hdup, hD,
                          by rw [hT]; exact hM, by rw [hT]; exact hthr,
                          by rw [appendPaper_papers, counted_papers]⟩,
                        fun _ => Or.inr (lt_of_not_ge hlim),
                        Or.inr (by rw [appendPaper_total, counted_total]),
                        fun hle => ?_, fun hp e he => ?_⟩
                      · rw [appendPaper_total, counted_total]
                        exact ⟨by omega, fun _ => by omega⟩
                      · rw [appendPaper_progress] at he
                        rw [appendPaper_total, counted_total]
                        rcases counted_progress_mem he with h' | rfl
                        · exact Nat.le_succ_of_le (hp e h')
                        · rfl
                · rename_i hthr
                  split at h
                  · rename_i hlim
                    simp only [Except.ok.injEq, Prod.mk.injEq] at h
                    obtain ⟨rfl, rfl⟩ := h
                    refine ⟨Or.inl (counted_papers _ _),
                      fun hb => absurd hb (by decide),
                      Or.inr (counted_total _ _), fun hle => ?_, fun hp e he => ?_⟩
                    · rw [counted_total]
                      exact ⟨by omega, fun hb => absurd hb (by decide)⟩
                    · rcases counted_progress_mem he with h' | rfl
                      · rw [counted_total]
                        exact Nat.le_succ_of_le (hp e h')
                      · rw [counted_total]
                  · rename_i hlim
                    simp only [Except.ok.injEq, Prod.mk.injEq] at h
                    obtain ⟨rfl, rfl⟩ := h
                    refine ⟨Or.inl (counted_papers _ _),
                      fun _ => Or.inl (counted_papers _ _),
                      Or.inr (counted_total _ _), fun hle => ?_, fun hp e he => ?_⟩
                    · rw [counted_total]
                      exact ⟨by omega, fun _ => by omega⟩
                    · rcases counted_progress_mem he with h' | rfl
                      · rw [counted_total]
                        exact Nat.le_succ_of_le (hp e h')
                      · rw [counted_total]

theorem papersEvolve_lookup {cfg : Cfg} {old new : List (Str × Paper)}
    (h : PapersEvolve cfg old new) {d : Str} {p : Paper}
    (hp : List.lookup d old = some p) : List.lookup d new = some p := by
  rcases h with rfl | ⟨d0, p0, _, _, _, _, rfl⟩
  · exact hp
  · exact lookup_append_of_some hp

theorem papersEvolve_inv {cfg : Cfg} {old new : List (Str × Paper)}
    (h : PapersEvolve cfg old new) (hinv : PapersInv cfg old) :
    PapersInv cfg new := by
  rcases h with rfl | ⟨d0, p0, hx, hD, hM, hT, rfl⟩
  · exact hinv
  · obtain ⟨hnd, hent⟩ := hinv
    constructor
    · rw [List.map_append, List.nodup_append]
      refine ⟨hnd, List.nodup_singleton _, fun a ha hb => ?_⟩
      rcases List.mem_singleton.mp (by simpa using hb) with rfl
      exact lookup_none_not_mem hx ha
    · intro pr hpr
      rcases List.mem_append.mp hpr with hm | hm
      · exact hent pr hm
      · rcases List.mem_singleton.mp hm with rfl
        exact ⟨hD, hM, hT⟩

theorem papersEvolve_length {cfg : Cfg} {old new : List (Str × Paper)}
    (h : PapersEvolve cfg old new) :
    new.length = old.length ∨ new.length = old.length + 1 := by
  rcases h with rfl | ⟨_, _, _, _, _, _, rfl⟩
  · exact Or.inl rfl
  · right; simp

/-- Full effect of the item loop on the state. -/
theorem processItems_spec {cfg : Cfg} :
    ∀ {items : List Item} {st st1 : SState} {brk : Bool},
      processItems cfg st items = .ok (st1, brk) →
      (∀ d p, List.lookup d st.papers = some p →
        List.lookup d st1.papers = some p) ∧
      (PapersInv cfg st.papers → PapersInv cfg st1.papers) ∧
      st.total_checked ≤ st1.total_checked ∧
      (st.total_checked ≤ SEARCH_SPACE_LIMIT →
        st1.total_checked ≤ SEARCH_SPACE_LIMIT + 1 ∧
        (brk = false → st1.total_checked ≤ SEARCH_SPACE_LIMIT)) ∧
      ((st1.papers.length : Int) ≤ cfg.output_limit ∨
        st1.papers.length ≤ st.papers.length + 1) ∧
      ((∀ e ∈ st.progress, e.1 ≤ st.total_checked) →
        ∀ e ∈ st1.progress, e.1 ≤ st1.total_checked)
  | [], st, st1, brk, h => by
    simp only [processItems, Except.ok.injEq, Prod.mk.injEq] at h
    obtain ⟨rfl, rfl⟩ := h
    exact ⟨fun d p hp => hp, id, Nat.le_refl _,
      fun hle => ⟨by omega, fun _ => hle⟩, Or.inr (by omega), fun hp => hp⟩
  | it :: rest, st, st1, brk, h => by
    simp only [processItems] at h
    split at h
    · exact absurd h (by simp)
    · rename_i stm brkm hstep
      obtain ⟨hpap, hbf, hctr, hceil, hprog⟩ := itemStep_spec hstep
      split at h
      · rename_i hbm
        simp only [Except.ok.injEq, Prod.mk.injEq] at h
        obtain ⟨rfl, rfl⟩ := h
        refine ⟨fun d p hp => papersEvolve_lookup hpap hp,
          papersEvolve_inv hpap,
          by rcases hctr with h' | h' <;> omega,
          fun hle => ⟨(hceil hle).1, fun hb => absurd hb (by decide)⟩,
          ?_, hprog⟩
        rcases papersEvolve_length hpap with hl | hl <;> exact Or.inr (by omega)
      · rename_i hbm
        have hbm' : brkm = false := by
          cases brkm
          · rfl
          · exact absurd rfl hbm
        obtain ⟨ihA, ihB, ihC, ihD, ihE, ihF⟩ := processItems_spec h
        refine ⟨fun d p hp => ihA d p (papersEvolve_lookup hpap hp),
          fun hi => ihB (papersEvolve_inv hpap hi),
          by rcases hctr with h' | h' <;> omega,
          fun hle => ihD ((hceil hle).2 hbm'),
          ?_, fun hp => ihF (hprog hp)⟩
        rcases hbf hbm' with hsame | hlt
        · rcases ihE with h' | h'
          · exact Or.inl h'
          · have hlen := congrArg List.length hsame
            exact Or.inr (by omega)
        · rcases ihE with h' | h'
          · exact Or.inl h'
          · exact Or.inl (by omega)

/-- Full effect of the page loop on the state. -/
theorem processPages_spec {cfg : Cfg} :
    ∀ {pages : List (List Item)} {st st1 : SState},
      processPages cfg st pages = .ok st1 →
      (∀ d p, List.lookup d st.papers = some p →
        List.lookup d st1.papers = some p) ∧
      (PapersInv cfg st.papers → PapersInv cfg st1.papers) ∧
      st.total_checked ≤ st1.total_checked ∧
      (st.total_checked ≤ SEARCH_SPACE_LIMIT →
        st1.total_checked ≤ SEARCH_SPACE_LIMIT + 1) ∧
      ((st1.papers.length : Int) ≤ cfg.output_limit ∨
        st1.papers.length ≤ st.papers.length + 1) ∧
      ((∀ e ∈ st.progress, e.1 ≤ st.total_checked) →
        ∀ e ∈ st1.progress, e.1 ≤ st1.total_checked)
  | [], st, st1, h => by
    simp only [processPages, Except.ok.injEq] at h
    subst h
    exact ⟨fun d p hp => hp, id, Nat.le_refl _, fun hle => by omega,
      Or.inr (by omega), fun hp => hp⟩
  | pg :: rest, st, st1, h => by
    simp only [processPages] at h
    split at h
    · simp only [Except.ok.injEq] at h
      subst h
      exact ⟨fun d p hp => hp, id, Nat.le_refl _, fun hle => by omega,
        Or.inr (by omega), fun hp => hp⟩
    · split at h
      · exact absurd h (by simp)
      · rename_i stm brkm hit
        obtain ⟨iA, iB, iC, iD, iE, iF⟩ := processItems_spec hit
        split at h
        · rename_i hstop
          simp only [Except.ok.injEq] at h
          subst h
          exact ⟨iA, iB, iC, fun hle => (iD hle).1, iE, iF⟩
        · rename_i hstop
          push_neg at hstop
          obtain ⟨hstL, hstS⟩ := hstop
          obtain ⟨jA, jB, jC, jD, jE, jF⟩ := processPages_spec h
          refine ⟨fun d p hp => jA d p (iA d p hp), fun hi => jB (iB hi),
            Nat.le_trans iC jC, fun hle => jD (by omega), ?_,
            fun hp => jF (iF hp)⟩
          rcases jE with h' | h'
          · exact Or.inl h'
          · exact Or.inl (by omega)

/-- Full effect of the keyword-group loop on the state. -/
theorem processGroups_spec {cfg : Cfg}
    {fetch : Nat → Nat → Except Nat (List (List Item))} :
    ∀ {gs : List (List Str)} {st st1 : SState} {i : Nat} {trace : List Nat},
      processGroups cfg fetch st i gs = (.ok st1, trace) →
      (∀ d p, List.lookup d st.papers = some p →
        List.lookup d st1.papers = some p) ∧
      (PapersInv cfg st.papers → PapersInv cfg st1.papers) ∧
      st.total_checked ≤ st1.total_checked ∧
      (st.total_checked ≤ SEARCH_SPACE_LIMIT + 1 →
        st1.total_checked ≤ SEARCH_SPACE_LIMIT + 1) ∧
      ((st1.papers.length : Int) ≤ cfg.output_limit + gs.length - 1 ∨
        (st1.papers.length : Int) ≤ st.papers.length + gs.length) ∧
      ((∀ e ∈ st.progress, e.1 ≤ st.total_checked) →
        ∀ e ∈ st1.progress, e.1 ≤ st1.total_checked)
  | [], st, st1, i, trace, h => by
    simp only [processGroups, Prod.mk.injEq, Except.ok.injEq] at h
    obtain ⟨rfl, rfl⟩ := h
    exact ⟨fun d p hp => hp, id, Nat.le_refl _, fun hle => hle,
      Or.inr (by simp), fun hp => hp⟩
  | ch :: rest, st, st1, i, trace, h => by
    simp only [processGroups] at h
    split at h
    · rename_i hguard
      simp only [Prod.mk.injEq, Except.ok.injEq] at h
      obtain ⟨rfl, rfl⟩ := h
      refine ⟨fun d p hp => hp, id, Nat.le_refl _, fun hle => hle,
        Or.inr ?_, fun hp => hp⟩
      simp only [List.length_cons]
      push_cast
      omega
    · rename_i hguard
      split at h
      · exact absurd h (by simp)
      · rename_i pages hsw
        split at h
        · exact absurd h (by simp)
        · rename_i stm hpp
          rcases hrec : processGroups cfg fetch stm (i + 1) rest with ⟨r, tr⟩
          rw [hrec] at h
          simp only [Prod.mk.injEq] at h
          obtain ⟨h1, rfl⟩ := h
          subst h1
          obtain ⟨iA, iB, iC, iD, iE, iF⟩ := processPages_spec hpp
          obtain ⟨jA, jB, jC, jD, jE, jF⟩ := processGroups_spec hrec
          have hg : st.total_checked < SEARCH_SPACE_LIMIT := by omega
          refine ⟨fun d p hp => jA d p (iA d p hp), fun hi => jB (iB hi),
            Nat.le_trans iC jC, fun _ => jD (iD (by omega)), ?_,
            fun hp => jF (iF hp)⟩
          simp only [List.length_cons]
          rcases jE with h' | h'
          · left; push_cast at h' ⊢; omega
          · rcases iE with h'' | h''
            · left; push_cast at h' ⊢; omega
            · right; push_cast at h' ⊢; omega

theorem cfgOf_keywords (k : List Str) (t l : Int) (p : List Publisher)
    (c : Bool) : (cfgOf k t l p c).keywords = k := rfl

theorem cfgOf_threshold (k : List Str) (t l : Int) (p : List Publisher)
    (c : Bool) : (cfgOf k t l p c).threshold = t := rfl

theorem cfgOf_output_limit (k : List Str) (t l : Int) (p : List Publisher)
    (c : Bool) : (cfgOf k t l p c).output_limit = l := rfl

theorem lookup_append_self {l : List (Str × Paper)} {d : Str} (p : Paper)
    (h : List.lookup d l = none) : List.lookup d (l ++ [(d, p)]) = some p := by
  induction l with
  | nil => simp [List.lookup]
  | cons kv t ih =>
    obtain ⟨k, v⟩ := kv
    simp only [List.lookup, List.cons_append] at h ⊢
    cases hb : d == k with
    | true => rw [hb] at h; simp at h
    | false => rw [hb] at h; exact ih h

/-- C1 (amended): the ResultSet of a successful `run_search` has at most
`output_limit + (number of keyword groups - 1)` entries: the group loop
(core.py line 85) re-checks only the search-space ceiling, not the output
limit, so each group processed after the limit is reached can accept one
further candidate before the record loop breaks. -/
theorem C1_output_bound_amended
    (fetch : Nat → Nat → Except Nat (List (List Item)))
    (keywords : List Str) (thr lim : Int) (pubs : List Publisher) (cb : Bool)
    (out : SearchOk) (tr : List Nat) (hlim : 1 ≤ lim)
    (h : run_search fetch keywords thr lim pubs cb = (.ok out, tr)) :
    (out.results.length : Int) ≤ lim + (chunk_keywords keywords).length - 1 := by
  obtain ⟨st, hpg, hraw, hres, _, _, _⟩ := run_search_ok h
  obtain ⟨_, _, _, _, jE, _⟩ := processGroups_spec hpg
  rw [cfgOf_output_limit] at jE
  have hreslen : out.results.length = st.papers.length := by
    rw [hres]
    split
    · next he => rw [he]; rw [← he, List.length_map]
    · rw [length_rank_papers, List.length_map]
  have hinit : initState.papers.length = 0 := rfl
  rw [hreslen]
  rcases jE with h' | h' <;> (rw [hinit] at *; omega)

/-- C3 (amended): the `total_checked` counter of a successful `run_search`
run, and every value passed to the progress callback, is at most
`SEARCH_SPACE_LIMIT + 1 = 2001`: the counter is incremrted before the
ceiling test `total_checked > SEARCH_SPACE_LIMIT` (core.py lines 124-129),
so it can reach 2001, never more. -/
theorem C3_search_ceiling_amended
    (fetch : Nat → Nat → Except Nat (List (List Item)))
    (keywords : List Str) (thr lim : Int) (pubs : List Publisher) (cb : Bool)
    (out : SearchOk) (tr : List Nat)
    (h : run_search fetch keywords thr lim pubs cb = (.ok out, tr)) :
    out.total_checked ≤ SEARCH_SPACE_LIMIT + 1 ∧
    ∀ e ∈ out.progressCalls, e.1 ≤ SEARCH_SPACE_LIMIT + 1 := by
  obtain ⟨st, hpg, _, _, htc, hprog, _⟩ := run_search_ok h
  obtain ⟨_, _, _, jD, _, jF⟩ := processGroups_spec hpg
  have h1 : st.total_checked ≤ SEARCH_SPACE_LIMIT + 1 :=
    jD (Nat.zero_le _)
  have h2 : ∀ e ∈ st.progress, e.1 ≤ st.total_checked :=
    jF (fun e he => absurd he (List.not_mem_nil e))
  constructor
  · rw [htc]; exact h1
  · intro e he
    rw [hprog] at he
    split at he
    · rcases List.mem_append.mp he with hm | hm
      · exact Nat.le_trans (h2 e hm) h1
      · rcases List.mem_singleton.mp hm with rfl
        exact h1
    · exact Nat.le_trans (h2 e he) h1

/-- C4 (amended): at most one ResultSet entry per identifier (the stored
identifiers are pairwise distinct), and an identifier's entry is never
overwritten once accepted: processing further records preserves every
existing dict binding, so the surviving data is that of the first
*accepted* occurrence (a later occurrence of an identifier whose earlier
occurrences were all rejected can still supply the entry). -/
theorem C4_dedup_amended :
    (∀ (fetch : Nat → Nat → Except Nat (List (List Item)))
        (keywords : List Str) (thr lim : Int) (pubs : List Publisher)
        (cb : Bool) (out : SearchOk) (tr : List Nat),
      run_search fetch keywords thr lim pubs cb = (.ok out, tr) →
      (out.raw.map Paper.DOI).Nodup) ∧
    (∀ (cfg : Cfg) (items : List Item) (st st1 : SState) (brk : Bool)
        (d : Str) (p : Paper),
      processItems cfg st items = .ok (st1, brk) →
      List.lookup d st.papers = some p →
      List.lookup d st1.papers = some p) := by
  constructor
  · intro fetch keywords thr lim pubs cb out tr h
    obtain ⟨st, hpg, hraw, _, _, _, _⟩ := run_search_ok h
    obtain ⟨_, jB, _⟩ := processGroups_spec hpg
    obtain ⟨hnd, hent⟩ := jB ⟨by simp [initState], by simp [initState]⟩
    have hmap : (st.papers.map Prod.snd).map Paper.DOI
        = st.papers.map Prod.fst := by
      rw [List.map_map]
      exact List.map_congr_left fun pr hpr => (hent pr hpr).1
    rw [hraw, hmap]
    exact hnd
  · intro cfg items st st1 brk d p hpi hp
    exact (processItems_spec hpi).1 d p hp

/-- C5 (amended): every accepted candidate stores
`Match_Count = len(matches)` — the number of *keyword-list entries* that
match (which can exceed the number of distinct matching keywords when the
request list contains duplicates) — while acceptance is decided on the
deduplicated count `len(set(matches)) >= threshold`; hence the stored
count is always `>= threshold`.  Conversely, a fresh, publisher-passing,
counted, title-bearing record is accepted iff its distinct match count
meets the threshold. -/
theorem C5_threshold_amended :
    (∀ (fetch : Nat → Nat → Except Nat (List (List Item)))
        (keywords : List Str) (thr lim : Int) (pubs : List Publisher)
        (cb : Bool) (out : SearchOk) (tr : List Nat),
      run_search fetch keywords thr lim pubs cb = (.ok out, tr) →
      ∀ p ∈ out.raw,
        p.Match_Count = (matchesFor keywords p.Title).length ∧
        ((matchesFor keywords p.Title).dedup.length : Int) ≥ thr ∧
        (p.Match_Count : Int) ≥ thr) ∧
    (∀ (cfg : Cfg) (st : SState) (item : Item) (st1 : SState) (brk : Bool)
        (doi : Str) (title : Str) (trest : List Str),
      itemStep cfg st item = .ok (st1, brk) →
      item.DOI = some doi → doi ≠ [] →
      List.lookup doi st.papers = none →
      (cfg.allowed_prefixes = [] ∨
        (cfg.allowed_prefixes.any fun pre => pre.isPrefixOf doi) = true) →
      st.total_checked + 1 ≤ SEARCH_SPACE_LIMIT →
      item.title = some (title :: trest) → title ≠ [] →
      ((List.lookup doi st1.papers).isSome ↔
        ((matchesFor cfg.keywords title).dedup.length : Int) ≥ cfg.threshold)) := by
  constructor
  · intro fetch keywords thr lim pubs cb out tr h p hp
    obtain ⟨st, hpg, hraw, _, _, _, _⟩ := run_search_ok h
    obtain ⟨_, jB, _⟩ := processGroups_spec hpg
    obtain ⟨hnd, hent⟩ := jB ⟨by simp [initState], by simp [initState]⟩
    rw [hraw] at hp
    obtain ⟨pr, hpr, rfl⟩ := List.mem_map.mp hp
    obtain ⟨_, hM, hT⟩ := hent pr hpr
    rw [cfgOf_keywords] at hM hT
    rw [cfgOf_threshold] at hT
    refine ⟨hM, hT, ?_⟩
    have hd : (matchesFor keywords pr.2.Title).dedup.length ≤
        (matchesFor keywords pr.2.Title).length :=
      (List.dedup_sublist _).length_le
    omega
  · intro cfg st item st1 brk doi title trest h hdoi hne hlk hpub htc hti htne
    simp only [itemStep, hdoi] at h
    rw [if_neg hne] at h
    rw [if_neg (by simp [hlk])] at h
    rw [if_neg (by rcases hpub with h' | h' <;> simp [h'])] at h
    rw [if_neg (by rw [counted_total]; simp [SEARCH_SPACE_LIMIT] at htc ⊢; omega)] at h
    rw [hti] at h
    simp only [getFirstD] at h
    rw [if_neg htne] at h
    by_cases hthr : ((matchesFor cfg.keywords title).dedup.length : Int) ≥
        cfg.threshold
    · rw [if_pos hthr] at h
      split at h
      · exact absurd h (by simp)
      · rename_i paper hbp
        split at h <;>
          (simp only [Except.ok.injEq, Prod.mk.injEq] at h;
           obtain ⟨rfl, rfl⟩ := h;
           rw [appendPaper_papers, counted_papers];
           simp only [lookup_append_self paper hlk, Option.isSome_some];
           exact iff_of_true trivial hthr)
    · rw [if_neg hthr] at h
      split at h <;>
        (simp only [Except.ok.injEq, Prod.mk.injEq] at h;
         obtain ⟨rfl, rfl⟩ := h;
         rw [counted_papers];
         rw [hlk];
         exact iff_of_false (by simp) hthr)

/-- C10 (amended): an examined record whose `title` field is a present but
empty list always aborts the search with the indexing error; a present but
empty `container-title` or `author` list (with the earlier reads
succeeding) aborts only when the record meets the match threshold and is
being stored — a record that fails the threshold never reads those fields
and is simply passed over. -/
theorem C10_empty_field_amended :
    (∀ (cfg : Cfg) (st : SState) (item : Item) (doi : Str),
      item.DOI = some doi → doi ≠ [] →
      List.lookup doi st.papers = none →
      (cfg.allowed_prefixes = [] ∨
        (cfg.allowed_prefixes.any fun pre => pre.isPrefixOf doi) = true) →
      st.total_checked + 1 ≤ SEARCH_SPACE_LIMIT →
      item.title = some [] →
      itemStep cfg st item = .error .indexError) ∧
    (∀ (cfg : Cfg) (st : SState) (item : Item) (doi : Str) (title : Str)
        (trest : List Str),
      item.DOI = some doi → doi ≠ [] →
      List.lookup doi st.papers = none →
      (cfg.allowed_prefixes = [] ∨
        (cfg.allowed_prefixes.any fun pre => pre.isPrefixOf doi) = true) →
      st.total_checked + 1 ≤ SEARCH_SPACE_LIMIT →
      item.title = some (title :: trest) → title ≠ [] →
      ((matchesFor cfg.keywords title).dedup.length : Int) ≥ cfg.threshold →
      (item.container_title = none ∨
        ∃ x xs, item.container_title = some (x :: xs)) →
      item.author = some [] →
      itemStep cfg st item = .error .indexError) := by
  constructor
  · intro cfg st item doi hdoi hne hlk hpub htc hti
    simp only [itemStep, hdoi]
    rw [if_neg hne]
    rw [if_neg (by simp [hlk])]
    rw [if_neg (by rcases hpub with h' | h' <;> simp [h'])]
    rw [if_neg (by rw [counted_total]; simp [SEARCH_SPACE_LIMIT] at htc ⊢; omega)]
    rw [hti]
    simp [getFirstD]
  · intro cfg st item doi title trest hdoi hne hlk hpub htc hti htne hthr hct hau
    simp only [itemStep, hdoi]
    rw [if_neg hne]
    rw [if_neg (by simp [hlk])]
    rw [if_neg (by rcases hpub with h' | h' <;> simp [h'])]
    rw [if_neg (by rw [counted_total]; simp [SEARCH_SPACE_LIMIT] at htc ⊢; omega)]
    rw [hti]
    simp only [getFirstD]
    rw [if_neg htne]
    rw [if_pos hthr]
    have hbp : buildPaper doi title (matchesFor cfg.keywords title) item =
        .error .indexError := by
      unfold buildPaper
      rcases hct with h' | ⟨x, xs, h'⟩ <;>
        (rw [h']; simp only [getFirstD]; rw [hau])
    rw [hbp]

/-- C1 as stated is false: with four keywords (two query groups) and
output limit 1, the second group still accepts one more candidate, so the
ResultSet has 2 > 1 entries. -/
theorem C1_counterexample :
    (okResults (run_search fetchTwoGroups
      [("a".toList), ("b".toList), ("c".toList), ("d".toList)]
      1 1 [] false)).length = 2 ∧
    ¬ (((okResults (run_search fetchTwoGroups
      [("a".toList), ("b".toList), ("c".toList), ("d".toList)]
      1 1 [] false)).length : Int) ≤ 1) :=
  ⟨by decide, by decide⟩

theorem C1_output_bound_amended_witness :
    (((⟨[], [], 0, []⟩ : SearchOk).results.length : Int) ≤
      1 + ((chunk_keywords [("a".toList)]).length : Int) - 1) :=
  C1_output_bound_amended (fun _ _ => .ok []) [("a".toList)] 1 1 [] false
    ⟨[], [], 0, []⟩ [0] (by decide) (by rfl)

set_option maxHeartbeats 2000000 in
set_option maxRecDepth 100000 in
/-- C3 as stated is false: a stream with 2001 countable records drives
`total_checked` to 2001, exceeding the 2000 ceiling by one. -/
theorem C3_counterexample :
    okTotal (run_search fetchCeiling [("a".toList)] 1 1000 [] false) = 2001 ∧
    ¬ okTotal (run_search fetchCeiling [("a".toList)] 1 1000 [] false)
      ≤ 2000 :=
  ⟨by decide, by decide⟩

theorem C3_search_ceiling_amended_witness :
    (⟨[], [], 0, []⟩ : SearchOk).total_checked ≤ SEARCH_SPACE_LIMIT + 1 ∧
    ∀ e ∈ (⟨[], [], 0, []⟩ : SearchOk).progressCalls,
      e.1 ≤ SEARCH_SPACE_LIMIT + 1 :=
  C3_search_ceiling_amended (fun _ _ => .ok []) [("a".toList)] 1 1 [] false
    ⟨[], [], 0, []⟩ [0] (by rfl)

/-- C4 as stated is false: identifier "1" occurs twice with different
match data; the first occurrence fails the threshold, so the surviving
entry carries the second occurrence's title, not the first's. -/
theorem C4_counterexample :
    (okResults (run_search fetchDupDOI [("a".toList)] 1 10 [] false)).map
      Paper.Title = [("a".toList)] ∧
    ("a".toList) ≠ ("z".toList) :=
  ⟨by decide, by decide⟩

theorem C4_dedup_amended_witness :
    ((⟨[], [], 0, []⟩ : SearchOk).raw.map Paper.DOI).Nodup ∧
    List.lookup ("d".toList) [(("d".toList), paperDummy)] = some paperDummy :=
  ⟨C4_dedup_amended.1 (fun _ _ => .ok []) [("a".toList)] 1 1 [] false
      ⟨[], [], 0, []⟩ [0] (by rfl),
   C4_dedup_amended.2 ⟨[], 1, 1, [], false⟩ []
      ⟨[(("d".toList), paperDummy)], 0, []⟩
      ⟨[(("d".toList), paperDummy)], 0, []⟩ false ("d".toList) paperDummy
      (by rfl) (by decide)⟩

/-- C5 as stated is false: with the duplicated keyword list ["a", "a"] a
title containing "a" stores `Match_Count = 2` although only 1 distinct
keyword was found. -/
theorem C5_counterexample :
    (okResults (run_search fetchOneA [("a".toList), ("a".toList)] 1 10 []
      false)).map Paper.Match_Count = [2] ∧
    (matchesFor [("a".toList), ("a".toList)] ("a".toList)).dedup.length = 1 ∧
    (2 : Nat) ≠ 1 :=
  ⟨by decide, by decide, by decide⟩

theorem C5_threshold_amended_witness :
    (∀ p ∈ (⟨[], [], 0, []⟩ : SearchOk).raw,
      p.Match_Count = (matchesFor [("a".toList)] p.Title).length ∧
      ((matchesFor [("a".toList)] p.Title).dedup.length : Int) ≥ 1 ∧
      (p.Match_Count : Int) ≥ 1) ∧
    ((List.lookup ("1".toList) stA.papers).isSome ↔
      ((matchesFor [("a".toList)] ("a".toList)).dedup.length : Int) ≥ 1) :=
  ⟨C5_threshold_amended.1 (fun _ _ => .ok []) [("a".toList)] 1 1 [] false
      ⟨[], [], 0, []⟩ [0] (by rfl),
   C5_threshold_amended.2 ⟨[("a".toList)], 1, 10, [], false⟩ initState itemA
      stA false ("1".toList) ("a".toList) [] (by rfl) (by rfl) (by decide)
      (by rfl) (Or.inl rfl) (by decide) (by rfl) (by decide)⟩

/-- C10 as stated is false: a record carrying a present-but-empty `author`
list whose title fails the match threshold is simply not accepted — the
search completes normally instead of aborting. -/
theorem C10_counterexample :
    (run_search fetchZEmptyAuthor [("a".toList)] 1 10 [] false).1 =
      .ok ⟨[], [], 1, []⟩ := by rfl

theorem C10_empty_field_amended_witness :
    itemStep ⟨[("a".toList)], 1, 10, [], false⟩ initState itemEmptyTitle =
      .error .indexError ∧
    itemStep ⟨[("a".toList)], 1, 10, [], false⟩ initState itemEmptyAuthor =
      .error .indexError :=
  ⟨C10_empty_field_amended.1 ⟨[("a".toList)], 1, 10, [], false⟩ initState
      itemEmptyTitle ("1".toList) (by rfl) (by decide) (by rfl) (Or.inl rfl)
      (by decide) (by rfl),
   C10_empty_field_amended.2 ⟨[("a".toList)], 1, 10, [], false⟩ initState
      itemEmptyAuthor ("1".toList) ("a".toList) [] (by rfl) (by decide)
      (by rfl) (Or.inl rfl) (by decide) (by rfl) (by decide) (by decide)
      (Or.inl rfl) (by rfl)⟩

end DOIMiner
